import Mathlib

/-!
Verification of the `create_zettel.py` conversion utility.

The script scans the directory `files.md`, and for each regular file in it:
copies it to `zettel/<zid> <stem><suffix>` and writes a metadata sidecar to
`zettel/<zid> <stem>`, where `<zid>` is a 14-digit timestamp string starting
at 1980-01-01 00:00:00 and advancing by one minute per processed file.

The embedding below models file names and file texts as lists of characters,
file contents as lists of bytes, and the filesystem effects of a run as the
list of (path, data) writes the script performs, in order.  Wall-clock reads
made by `datetime.datetime.now()` are modelled as an explicit clock argument
(one reading per processed file), and the fallible OS calls (`shutil.rmtree`,
`mkdir`, `shutil.copyfile`, `open(...,"wt")`) are modelled with explicit
error injection, so that the error-handling paths of the script are visible.
-/

namespace CreateZettel

/-- A directory entry as seen by `filesdir.iterdir()` (line 42): a name,
whether `fpath.is_file()` holds (line 43), and the file's bytes. -/
structure Entry where
  name : List Char
  isFile : Bool
  content : List Nat
deriving DecidableEq

/-- Split a file name into pathlib's `stem` and `suffix` (lines 46-47).
pathlib's rule: let `i` be the index of the last `.` in the name; if
`0 < i < len - 1` then the suffix is the part of the name from `i` on and the
stem everything before it; otherwise the suffix is empty and the stem is the
whole name. -/
def pySplitName (name : List Char) : List Char × List Char :=
  let rev := name.reverse
  let extRev := rev.takeWhile (fun c => c ≠ '.')
  match rev.dropWhile (fun c => c ≠ '.') with
  | [] => (name, [])
  | _ :: stemRev =>
    if extRev = [] ∨ stemRev = [] then (name, [])
    else (stemRev.reverse, '.' :: extRev.reverse)

/-- `fpath.stem` for a file of the given name. -/
def pyStem (name : List Char) : List Char := (pySplitName name).1

/-- `fpath.suffix` for a file of the given name. -/
def pySuffix (name : List Char) : List Char := (pySplitName name).2

/-- `fpath.stem.replace('.', '_')` (line 46). -/
def replaceDots (s : List Char) : List Char :=
  s.map fun c => if c = '.' then '_' else c

/-- Python's `str.capitalize()` (line 31), modelled for ASCII text: the first
character is upper-cased and every remaining character is lower-cased. -/
def pyCapitalize : List Char → List Char
  | [] => []
  | c :: cs => c.toUpper :: cs.map Char.toLower

/-- A `datetime.datetime` value (module `datetime`): the fields used by the
script.  Python's `datetime` only represents years 1 through 9999; adding a
`timedelta` past year 9999 raises `OverflowError` and kills the run, so only
dates with `year ≤ 9999` are reachable in a completed run. -/
structure Datetime where
  year : Nat
  month : Nat
  day : Nat
  hour : Nat
  minute : Nat
  second : Nat
deriving DecidableEq

/-- Gregorian leap-year rule, as used by `datetime` date arithmetic. -/
def isLeap (y : Nat) : Bool :=
  (y % 4 == 0 && y % 100 != 0) || y % 400 == 0

/-- Days in a month of a given year (Gregorian calendar, as in `datetime`).
Only months 1..12 occur; the fall-through value is irrelevant. -/
def daysInMonth (y m : Nat) : Nat :=
  if m = 2 then (if isLeap y then 29 else 28)
  else if m = 4 ∨ m = 6 ∨ m = 9 ∨ m = 11 then 30
  else 31

/-- `currdate += datetime.timedelta(minutes=1)` (line 50): add one minute,
carrying into the hour, day, month and year as `datetime` arithmetic does. -/
def addMinute (d : Datetime) : Datetime :=
  if d.minute + 1 < 60 then { d with minute := d.minute + 1 }
  else if d.hour + 1 < 24 then { d with minute := 0, hour := d.hour + 1 }
  else if d.day + 1 ≤ daysInMonth d.year d.month then
    { d with minute := 0, hour := 0, day := d.day + 1 }
  else if d.month + 1 ≤ 12 then
    { d with minute := 0, hour := 0, day := 1, month := d.month + 1 }
  else
    { d with minute := 0, hour := 0, day := 1, month := 1, year := d.year + 1 }

/-- Adding `n` minutes, one at a time (the loop performs one `addMinute` per
processed file). -/
def addMinutes (d : Datetime) : Nat → Datetime
  | 0 => d
  | n + 1 => addMinute (addMinutes d n)

/-- `datetime.datetime(1980, 1, 1)` (line 40). -/
def epoch1980 : Datetime := ⟨1980, 1, 1, 0, 0, 0⟩

/-- The `datetime` held by `currdate` when the i-th regular file (counting
from zero) is processed. -/
def currdateAt (i : Nat) : Datetime := addMinutes epoch1980 i

/-- A well-formed `datetime` value: the invariant Python's `datetime` type
maintains for its fields (month 1..12, day within the month, hour < 24,
minute and second < 60). -/
def ValidDT (d : Datetime) : Prop :=
  1 ≤ d.month ∧ d.month ≤ 12 ∧ 1 ≤ d.day ∧ d.day ≤ daysInMonth d.year d.month ∧
    d.hour < 24 ∧ d.minute < 60 ∧ d.second < 60

instance (d : Datetime) : Decidable (ValidDT d) := by
  unfold ValidDT; exact inferInstance

/-- The decimal digits of `n`, zero-padded/truncated to exactly `k` digits,
most significant first, as characters. -/
def digitsB : Nat → Nat → List Char
  | 0, _ => []
  | k + 1, n => digitsB k (n / 10) ++ [Char.ofNat (48 + n % 10)]

/-- `strftime("%Y%m%d%H%M%S")` (lines 34 and 45): the four-digit year then
two digits each for month, day, hour, minute, second.  (`datetime` years
never exceed 9999, so four digits always suffice.) -/
def strftimeYmdHMS (d : Datetime) : List Char :=
  digitsB 4 d.year ++ (digitsB 2 d.month ++ (digitsB 2 d.day ++
    (digitsB 2 d.hour ++ (digitsB 2 d.minute ++ digitsB 2 d.second))))

/-- Data written to an output path: either raw bytes (`shutil.copyfile`) or
text (`open(metapath, "wt")` plus `print` calls). -/
inductive FileData where
  | bytes (bs : List Nat)
  | text (s : List Char)
deriving DecidableEq

/-- One write performed by the script: destination path and the data. -/
abbrev Write := List Char × FileData

/-- The text written by `make_meta(metapath, title)` (lines 28-34), given the
`title` argument and the wall-clock `datetime` observed by the single
`datetime.datetime.now()` call inside it.  `print(a, b)` separates its
arguments with one space and ends the line with a newline. -/
def make_meta (title : List Char) (now : Datetime) : List Char :=
  "title: ".toList ++ pyCapitalize title ++ ('\n' ::
    ("role: zettel".toList ++ ('\n' ::
      ("syntax: markdown".toList ++ ('\n' ::
        ("created: ".toList ++ strftimeYmdHMS now ++ ['\n']))))))

/-- The data written by `copy_zettel(frompath, topath)` (lines 24-26): the
source file's bytes, verbatim. -/
def copy_zettel (e : Entry) : FileData := FileData.bytes e.content

/-- The loop of `main` (lines 42-50), on the error-free path: given the clock
(the `datetime.now()` reading at the k-th processed file), the current
`currdate`, the number `k` of files processed so far, and the remaining
directory entries, produce the list of writes in order.  Non-files are
skipped (line 43-44); each file yields the content-copy write (line 48) then
the metadata write (line 49), and `currdate` advances by one minute
(line 50). -/
def processFiles (clock : Nat → Datetime) : Datetime → Nat → List Entry → List Write
  | _, _, [] => []
  | d, k, e :: rest =>
    if e.isFile then
      (strftimeYmdHMS d ++ ' ' :: (replaceDots (pyStem e.name) ++ pySuffix e.name),
         copy_zettel e) ::
      (strftimeYmdHMS d ++ ' ' :: replaceDots (pyStem e.name),
         FileData.text (make_meta (replaceDots (pyStem e.name)) (clock k))) ::
      processFiles clock (addMinute d) (k + 1) rest
    else processFiles clock d k rest

/-- The loop of `main` with I/O error injection: `copyErr k` (resp.
`metaErr k`) is the `OSError` message raised by the copy (resp. the metadata
write) of the k-th processed file, if any.  Such an error is uncaught and
aborts the run (`Except.error`). -/
def processFilesE (clock : Nat → Datetime) (copyErr metaErr : Nat → Option (List Char)) :
    Datetime → Nat → List Entry → Except (List Char) (List Write)
  | _, _, [] => Except.ok []
  | d, k, e :: rest =>
    if e.isFile then
      match copyErr k with
      | some m => Except.error m
      | none =>
        match metaErr k with
        | some m => Except.error m
        | none =>
          match processFilesE clock copyErr metaErr (addMinute d) (k + 1) rest with
          | Except.error m => Except.error m
          | Except.ok ws =>
            Except.ok
              ((strftimeYmdHMS d ++ ' ' :: (replaceDots (pyStem e.name) ++ pySuffix e.name),
                  copy_zettel e) ::
                (strftimeYmdHMS d ++ ' ' :: replaceDots (pyStem e.name),
                  FileData.text (make_meta (replaceDots (pyStem e.name)) (clock k))) :: ws)
    else processFilesE clock copyErr metaErr d k rest

/-- `create_zettel_dir()` (lines 14-22), modelled on its error behaviour.
`rmErr` is the `OSError` message raised by `shutil.rmtree(ZETTEL_DIR)`
(`none` when the removal succeeds); an `OSError` of any kind — including
`FileNotFoundError` when no prior directory exists — is caught and printed
(line 18-19), and the function continues.  `mkErr` is the error raised by
`result.mkdir()` (line 21), which is uncaught and aborts the run.  The
result, on success, is the list of lines printed to standard output. -/
def create_zettel_dir (rmErr mkErr : Option (List Char)) :
    Except (List Char) (List (List Char)) :=
  let printed : List (List Char) := match rmErr with
    | none => []
    | some m => [m]
  match mkErr with
  | some m => Except.error m
  | none => Except.ok printed

/-- The whole-run environment: outcomes of the fallible OS calls, the wall
clock, and the entries `filesdir.iterdir()` yields, in enumeration order. -/
structure Env where
  rmErr : Option (List Char)
  mkErr : Option (List Char)
  clock : Nat → Datetime
  copyErr : Nat → Option (List Char)
  metaErr : Nat → Option (List Char)
  entries : List Entry

/-- Result of a successful run: the lines printed to standard output and the
writes performed, in order. -/
structure RunOut where
  stdout : List (List Char)
  writes : List Write
deriving DecidableEq

/-- `main()` (lines 36-50): reset the output directory, then process the
entries starting from `currdate = datetime.datetime(1980, 1, 1)` with zero
files processed so far. -/
def main_run (env : Env) : Except (List Char) RunOut :=
  match create_zettel_dir env.rmErr env.mkErr with
  | Except.error m => Except.error m
  | Except.ok printed =>
    match processFilesE env.clock env.copyErr env.metaErr epoch1980 0 env.entries with
    | Except.error m => Except.error m
    | Except.ok ws => Except.ok ⟨printed, ws⟩

/-- Number of regular files among the entries (the files the loop processes). -/
def countFiles (es : List Entry) : Nat := (es.filter fun e => e.isFile).length

/-- Number of distinct paths written: the number of files present in the
output directory after the run (a later write to the same path overwrites). -/
def distinctPaths (ws : List Write) : Nat := ((ws.map Prod.fst).dedup).length

/-- The data a path holds after all writes: the last write to it wins. -/
def finalFS (ws : List Write) (p : List Char) : Option FileData :=
  (ws.reverse.find? fun w => decide (w.1 = p)).map Prod.snd

/-- The content files among the writes (path and bytes): the part of the
output produced by `copy_zettel`, with the metadata writes left out. -/
def contentWrites (ws : List Write) : List (List Char × List Nat) :=
  ws.filterMap fun w => match w.2 with
    | FileData.bytes bs => some (w.1, bs)
    | FileData.text _ => none

/-- Number of newline characters in a text: one per newline-terminated line. -/
def countNL (s : List Char) : Nat := (s.filter fun c => c = '\n').length

/-- The numeric reading of a `datetime`'s `YYYYMMDDHHMMSS` rendering: the
fields packed as two decimal digits each after the year. -/
def dtN (d : Datetime) : Nat :=
  ((((d.year * 100 + d.month) * 100 + d.day) * 100 + d.hour) * 100 + d.minute) * 100 + d.second

section Lemmas

lemma daysInMonth_pos (y m : Nat) : 1 ≤ daysInMonth y m := by
  unfold daysInMonth
  split
  · split <;> omega
  · split <;> omega

lemma daysInMonth_le_31 (y m : Nat) : daysInMonth y m ≤ 31 := by
  unfold daysInMonth
  split
  · split <;> omega
  · split <;> omega

lemma addMinute_valid {d : Datetime} (h : ValidDT d) : ValidDT (addMinute d) := by
  obtain ⟨h1, h2, h3, h4, h5, h6, h7⟩ := h
  unfold addMinute
  split
  next hm => exact ⟨h1, h2, h3, h4, h5, hm, h7⟩
  next hm =>
    split
    next hh => exact ⟨h1, h2, h3, h4, hh, by dsimp only; omega, h7⟩
    next hh =>
      split
      next hd => exact ⟨h1, h2, by dsimp only; omega, hd, by dsimp only; omega, by dsimp only; omega, h7⟩
      next hd =>
        split
        next hmo =>
          exact ⟨by dsimp only; omega, hmo, by dsimp only; omega, daysInMonth_pos _ _, by dsimp only; omega, by dsimp only; omega, h7⟩
        next hmo =>
          exact ⟨by dsimp only; omega, by dsimp only; omega, by dsimp only; omega, daysInMonth_pos _ _, by dsimp only; omega, by dsimp only; omega, h7⟩

lemma dtN_lt_addMinute {d : Datetime} (h : ValidDT d) : dtN d < dtN (addMinute d) := by
  obtain ⟨h1, h2, h3, h4, h5, h6, h7⟩ := h
  have h31 := daysInMonth_le_31 d.year d.month
  unfold addMinute
  split
  next hm => dsimp only [dtN]; omega
  next hm =>
    split
    next hh => dsimp only [dtN]; omega
    next hh =>
      split
      next hd => dsimp only [dtN]; omega
      next hd =>
        split
        next hmo => dsimp only [dtN]; omega
        next hmo => dsimp only [dtN]; omega

lemma addMinute_year_le (d : Datetime) : d.year ≤ (addMinute d).year := by
  unfold addMinute
  split
  · dsimp only; omega
  · split
    · dsimp only; omega
    · split
      · dsimp only; omega
      · split <;> dsimp only <;> omega

lemma validDT_addMinutes {d : Datetime} (h : ValidDT d) (n : Nat) :
    ValidDT (addMinutes d n) := by
  induction n with
  | zero => exact h
  | succ m ih => exact addMinute_valid ih

lemma addMinutes_add (d : Datetime) (a b : Nat) :
    addMinutes d (a + b) = addMinutes (addMinutes d a) b := by
  induction b with
  | zero => rfl
  | succ m ih => simp only [addMinutes, ← ih]; rfl

lemma addMinutes_succ_shift (d : Datetime) (n : Nat) :
    addMinutes (addMinute d) n = addMinutes d (n + 1) := by
  have h := addMinutes_add d 1 n
  have h1 : addMinutes d 1 = addMinute d := rfl
  rw [h1] at h
  rw [← h, Nat.add_comm]

lemma dtN_lt_addMinutes {d : Datetime} (h : ValidDT d) :
    ∀ n, 0 < n → dtN d < dtN (addMinutes d n) := by
  intro n hn
  induction n with
  | zero => omega
  | succ m ih =>
    rcases Nat.eq_zero_or_pos m with hm | hm
    · subst hm; exact dtN_lt_addMinute h
    · exact lt_trans (ih hm) (dtN_lt_addMinute (validDT_addMinutes h m))

lemma year_le_addMinutes (d : Datetime) : ∀ n, d.year ≤ (addMinutes d n).year := by
  intro n
  induction n with
  | zero => exact le_refl _
  | succ m ih => exact le_trans ih (addMinute_year_le (addMinutes d m))

lemma year_mono_addMinutes (d : Datetime) {i j : Nat} (hij : i ≤ j) :
    (addMinutes d i).year ≤ (addMinutes d j).year := by
  have h := year_le_addMinutes (addMinutes d i) (j - i)
  rw [← addMinutes_add] at h
  have hj : i + (j - i) = j := by omega
  rw [hj] at h
  exact h

lemma digitsB_length (k : Nat) : ∀ n, (digitsB k n).length = k := by
  induction k with
  | zero => intro n; rfl
  | succ m ih => intro n; simp [digitsB, ih]

lemma digitsB_append (k : Nat) : ∀ j a b, b < 10 ^ k →
    digitsB j a ++ digitsB k b = digitsB (j + k) (a * 10 ^ k + b) := by
  induction k with
  | zero =>
    intro j a b hb
    have hb0 : b = 0 := by omega
    subst hb0
    simp [digitsB]
  | succ m ih =>
    intro j a b hb
    have hps : (10:Nat) ^ (m + 1) = 10 ^ m * 10 := pow_succ 10 m
    have hd : b / 10 < 10 ^ m := by omega
    have hdiv : (a * 10 ^ (m + 1) + b) / 10 = a * 10 ^ m + b / 10 := by
      rw [hps, ← Nat.mul_assoc]
      omega
    have hmod : (a * 10 ^ (m + 1) + b) % 10 = b % 10 := by
      rw [hps, ← Nat.mul_assoc]
      omega
    have hj : j + (m + 1) = (j + m) + 1 := by omega
    rw [hj]
    simp only [digitsB]
    rw [← List.append_assoc, ih j a (b / 10) hd, hdiv, hmod]

lemma digitChar_lt : ∀ a < 10, ∀ b < 10, a < b →
    Char.ofNat (48 + a) < Char.ofNat (48 + b) := by decide

lemma lex_append_last (xs : List Char) {x y : Char} (h : x < y) :
    List.Lex (· < ·) (xs ++ [x]) (xs ++ [y]) := by
  induction xs with
  | nil => exact List.Lex.rel h
  | cons c cs ih => exact List.Lex.cons ih

lemma lex_append_left : ∀ {xs ys : List Char}, List.Lex (· < ·) xs ys →
    ∀ (u v : List Char), xs.length = ys.length →
      List.Lex (· < ·) (xs ++ u) (ys ++ v) := by
  intro xs ys h
  induction h with
  | nil => intro u v hlen; simp at hlen
  | cons h ih => intro u v hlen; exact List.Lex.cons (ih u v (by simpa using hlen))
  | rel hr => intro u v hlen; exact List.Lex.rel hr

lemma lex_ne {xs ys : List Char} (h : List.Lex (· < ·) xs ys) : xs ≠ ys := by
  induction h with
  | nil => simp
  | cons h ih => intro he; injection he with h1 h2; exact ih h2
  | rel hr =>
    intro he
    injection he with h1 h2
    subst h1
    exact lt_irrefl _ hr

lemma digitsB_lex (k : Nat) : ∀ a b, a < b → b < 10 ^ k →
    List.Lex (· < ·) (digitsB k a) (digitsB k b) := by
  induction k with
  | zero => intro a b hab hb; omega
  | succ m ih =>
    intro a b hab hb
    have hps : (10:Nat) ^ (m + 1) = 10 ^ m * 10 := pow_succ 10 m
    have hb10 : b / 10 < 10 ^ m := by omega
    rcases Nat.lt_or_ge (a / 10) (b / 10) with hq | hq
    · have h1 := ih (a / 10) (b / 10) hq hb10
      simp only [digitsB]
      exact lex_append_left h1 _ _ (by rw [digitsB_length, digitsB_length])
    · have hq' : a / 10 = b / 10 := by omega
      have hm10 : a % 10 < b % 10 := by omega
      simp only [digitsB]
      rw [hq']
      exact lex_append_last _ (digitChar_lt _ (by omega) _ (by omega) hm10)

lemma digitsB_ne {k a b : Nat} (hab : a ≠ b) (ha : a < 10 ^ k) (hb : b < 10 ^ k) :
    digitsB k a ≠ digitsB k b := by
  rcases Nat.lt_or_ge a b with h | h
  · exact lex_ne (digitsB_lex k a b h hb)
  · exact Ne.symm (lex_ne (digitsB_lex k b a (by omega) ha))

lemma strftime_length (d : Datetime) : (strftimeYmdHMS d).length = 14 := by
  simp [strftimeYmdHMS, digitsB_length]

lemma strftime_eq_digitsB {d : Datetime} (h : ValidDT d) :
    strftimeYmdHMS d = digitsB 14 (dtN d) := by
  obtain ⟨h1, h2, h3, h4, h5, h6, h7⟩ := h
  have h31 := daysInMonth_le_31 d.year d.month
  have p2 : (10:Nat) ^ 2 = 100 := by norm_num
  have p4 : (10:Nat) ^ 4 = 10000 := by norm_num
  have p6 : (10:Nat) ^ 6 = 1000000 := by norm_num
  have p8 : (10:Nat) ^ 8 = 100000000 := by norm_num
  have p10 : (10:Nat) ^ 10 = 10000000000 := by norm_num
  have e1 : digitsB 2 d.minute ++ digitsB 2 d.second =
      digitsB 4 (d.minute * 100 + d.second) := by
    have h0 := digitsB_append 2 2 d.minute d.second (by omega)
    rw [p2] at h0
    exact h0
  have e2 : digitsB 2 d.hour ++ digitsB 4 (d.minute * 100 + d.second) =
      digitsB 6 (d.hour * 10000 + (d.minute * 100 + d.second)) := by
    have h0 := digitsB_append 4 2 d.hour (d.minute * 100 + d.second) (by omega)
    rw [p4] at h0
    exact h0
  have e3 : digitsB 2 d.day ++ digitsB 6 (d.hour * 10000 + (d.minute * 100 + d.second)) =
      digitsB 8 (d.day * 1000000 + (d.hour * 10000 + (d.minute * 100 + d.second))) := by
    have h0 := digitsB_append 6 2 d.day
      (d.hour * 10000 + (d.minute * 100 + d.second)) (by omega)
    rw [p6] at h0
    exact h0
  have e4 : digitsB 2 d.month ++
        digitsB 8 (d.day * 1000000 + (d.hour * 10000 + (d.minute * 100 + d.second))) =
      digitsB 10 (d.month * 100000000 +
        (d.day * 1000000 + (d.hour * 10000 + (d.minute * 100 + d.second)))) := by
    have h0 := digitsB_append 8 2 d.month
      (d.day * 1000000 + (d.hour * 10000 + (d.minute * 100 + d.second))) (by omega)
    rw [p8] at h0
    exact h0
  have e5 : digitsB 4 d.year ++
        digitsB 10 (d.month * 100000000 +
          (d.day * 1000000 + (d.hour * 10000 + (d.minute * 100 + d.second)))) =
      digitsB 14 (d.year * 10000000000 +
        (d.month * 100000000 +
          (d.day * 1000000 + (d.hour * 10000 + (d.minute * 100 + d.second))))) := by
    have h0 := digitsB_append 10 4 d.year
      (d.month * 100000000 +
        (d.day * 1000000 + (d.hour * 10000 + (d.minute * 100 + d.second)))) (by omega)
    rw [p10] at h0
    exact h0
  unfold strftimeYmdHMS
  rw [e1, e2, e3, e4, e5]
  congr 1
  unfold dtN
  ring

lemma dtN_lt_pow14 {d : Datetime} (h : ValidDT d) (hy : d.year ≤ 9999) :
    dtN d < 10 ^ 14 := by
  obtain ⟨h1, h2, h3, h4, h5, h6, h7⟩ := h
  have h31 := daysInMonth_le_31 d.year d.month
  have p14 : (10:Nat) ^ 14 = 100000000000000 := by norm_num
  unfold dtN
  omega

lemma strftime_lex_of_lt {d : Datetime} (h : ValidDT d) {i j : Nat} (hij : i < j)
    (hy : (addMinutes d j).year ≤ 9999) :
    List.Lex (· < ·) (strftimeYmdHMS (addMinutes d i)) (strftimeYmdHMS (addMinutes d j)) := by
  have hvi := validDT_addMinutes h i
  have hvj := validDT_addMinutes h j
  have hlt : dtN (addMinutes d i) < dtN (addMinutes d j) := by
    have h0 := dtN_lt_addMinutes hvi (j - i) (by omega)
    rw [← addMinutes_add] at h0
    have hj : i + (j - i) = j := by omega
    rw [hj] at h0
    exact h0
  rw [strftime_eq_digitsB hvi, strftime_eq_digitsB hvj]
  exact digitsB_lex 14 _ _ hlt (dtN_lt_pow14 hvj hy)

lemma strftime_ne_of_lt {d : Datetime} (h : ValidDT d) {i j : Nat} (hij : i < j)
    (hy : (addMinutes d j).year ≤ 9999) :
    strftimeYmdHMS (addMinutes d i) ≠ strftimeYmdHMS (addMinutes d j) :=
  lex_ne (strftime_lex_of_lt h hij hy)

lemma path_ne_of_zid_ne {d d' : Datetime} (h : strftimeYmdHMS d ≠ strftimeYmdHMS d')
    (u v : List Char) : strftimeYmdHMS d ++ u ≠ strftimeYmdHMS d' ++ v := by
  intro he
  exact h (List.append_inj_left he (by rw [strftime_length, strftime_length]))

lemma countFiles_nil : countFiles [] = 0 := rfl

lemma countFiles_cons_file {e : Entry} (hf : e.isFile = true) (es : List Entry) :
    countFiles (e :: es) = countFiles es + 1 := by
  simp [countFiles, hf]

lemma countFiles_cons_skip {e : Entry} (hf : e.isFile = false) (es : List Entry) :
    countFiles (e :: es) = countFiles es := by
  simp [countFiles, hf]

lemma processFiles_skip (clock : Nat → Datetime) (d : Datetime) (k : Nat)
    {e : Entry} (es : List Entry) (hf : e.isFile = false) :
    processFiles clock d k (e :: es) = processFiles clock d k es := by
  simp [processFiles, hf]

lemma processFiles_cons_file (clock : Nat → Datetime) (d : Datetime) (k : Nat)
    {e : Entry} (es : List Entry) (hf : e.isFile = true) :
    processFiles clock d k (e :: es) =
      (strftimeYmdHMS d ++ ' ' :: (replaceDots (pyStem e.name) ++ pySuffix e.name),
         copy_zettel e) ::
      (strftimeYmdHMS d ++ ' ' :: replaceDots (pyStem e.name),
         FileData.text (make_meta (replaceDots (pyStem e.name)) (clock k))) ::
      processFiles clock (addMinute d) (k + 1) es := by
  simp [processFiles, hf]

lemma mem_processFiles_shape (clock : Nat → Datetime) :
    ∀ (es : List Entry) (d : Datetime) (k : Nat) (p : List Char) (fd : FileData),
      (p, fd) ∈ processFiles clock d k es →
      ∃ i e, i < countFiles es ∧ e ∈ es ∧ e.isFile = true ∧
        ((p = strftimeYmdHMS (addMinutes d i) ++
              ' ' :: (replaceDots (pyStem e.name) ++ pySuffix e.name) ∧
            fd = copy_zettel e) ∨
         (p = strftimeYmdHMS (addMinutes d i) ++ ' ' :: replaceDots (pyStem e.name) ∧
            fd = FileData.text (make_meta (replaceDots (pyStem e.name)) (clock (k + i))))) := by
  intro es
  induction es with
  | nil => intro d k p fd h; simp [processFiles] at h
  | cons e rest ih =>
    intro d k p fd h
    by_cases hf : e.isFile = true
    · rw [processFiles_cons_file clock d k rest hf] at h
      rcases List.mem_cons.mp h with h0 | h'
      · refine ⟨0, e, ?_, List.mem_cons_self e rest, hf, Or.inl ?_⟩
        · rw [countFiles_cons_file hf]; omega
        · have := Prod.mk.injEq .. ▸ h0
          exact ⟨congrArg Prod.fst h0, congrArg Prod.snd h0⟩
      · rcases List.mem_cons.mp h' with h0 | h''
        · refine ⟨0, e, ?_, List.mem_cons_self e rest, hf, Or.inr ?_⟩
          · rw [countFiles_cons_file hf]; omega
          · exact ⟨congrArg Prod.fst h0, by simpa using congrArg Prod.snd h0⟩
        · obtain ⟨i, e', hi, he', hf', hcase⟩ := ih (addMinute d) (k + 1) p fd h''
          refine ⟨i + 1, e', ?_, List.mem_cons_of_mem e he', hf', ?_⟩
          · rw [countFiles_cons_file hf]; omega
          · rw [addMinutes_succ_shift] at hcase
            have hk : k + 1 + i = k + (i + 1) := by omega
            rw [hk] at hcase
            exact hcase
    · have hf' : e.isFile = false := by simpa using hf
      rw [processFiles_skip clock d k rest hf'] at h
      obtain ⟨i, e', hi, he', hf2, hcase⟩ := ih d k p fd h
      refine ⟨i, e', ?_, List.mem_cons_of_mem e he', hf2, hcase⟩
      rw [countFiles_cons_skip hf']
      exact hi

lemma path_mem_shape (clock : Nat → Datetime) {es : List Entry} {d : Datetime} {k : Nat}
    {p : List Char} (hp : p ∈ (processFiles clock d k es).map Prod.fst) :
    ∃ i t, i < countFiles es ∧ p = strftimeYmdHMS (addMinutes d i) ++ ' ' :: t := by
  obtain ⟨w, hw, hfst⟩ := List.mem_map.mp hp
  obtain ⟨i, e, hi, _, _, hcase⟩ :=
    mem_processFiles_shape clock es d k w.1 w.2 (by rwa [Prod.mk.eta])
  rcases hcase with ⟨hpath, _⟩ | ⟨hpath, _⟩
  · exact ⟨i, _, hi, by rw [← hfst, hpath]⟩
  · exact ⟨i, _, hi, by rw [← hfst, hpath]⟩

lemma nthFile_content_mem (clock : Nat → Datetime) :
    ∀ (es : List Entry) (d : Datetime) (k : Nat) (i : Nat) (e : Entry),
      (es.filter fun x => x.isFile).get? i = some e →
      (strftimeYmdHMS (addMinutes d i) ++
          ' ' :: (replaceDots (pyStem e.name) ++ pySuffix e.name),
        copy_zettel e) ∈ processFiles clock d k es := by
  intro es
  induction es with
  | nil => intro d k i e h; simp at h
  | cons x rest ih =>
    intro d k i e h
    by_cases hf : x.isFile = true
    · rw [List.filter_cons_of_pos (by simpa using hf)] at h
      rw [processFiles_cons_file clock d k rest hf]
      cases i with
      | zero =>
        have hx : x = e := by simpa using h
        subst hx
        exact List.mem_cons_self _ _
      | succ m =>
        have hm : (rest.filter fun x => x.isFile).get? m = some e := by simpa using h
        have hmem := ih (addMinute d) (k + 1) m e hm
        rw [addMinutes_succ_shift] at hmem
        exact List.mem_cons_of_mem _ (List.mem_cons_of_mem _ hmem)
    · have hf' : x.isFile = false := by simpa using hf
      rw [List.filter_cons_of_neg (by simpa using hf')] at h
      rw [processFiles_skip clock d k rest hf']
      exact ih d k i e h

lemma processFiles_clock_irrelevant (clock clock' : Nat → Datetime) :
    ∀ (es : List Entry) (d : Datetime) (k : Nat),
      (processFiles clock d k es).map Prod.fst =
        (processFiles clock' d k es).map Prod.fst ∧
      contentWrites (processFiles clock d k es) =
        contentWrites (processFiles clock' d k es) := by
  intro es
  induction es with
  | nil => intro d k; exact ⟨rfl, rfl⟩
  | cons e rest ih =>
    intro d k
    by_cases hf : e.isFile = true
    · obtain ⟨ih1, ih2⟩ := ih (addMinute d) (k + 1)
      rw [processFiles_cons_file clock d k rest hf,
        processFiles_cons_file clock' d k rest hf]
      constructor
      · simp only [List.map_cons]
        rw [ih1]
      · simp only [contentWrites, List.filterMap_cons, copy_zettel]
        simp only [contentWrites] at ih2
        rw [ih2]
    · have hf' : e.isFile = false := by simpa using hf
      rw [processFiles_skip clock d k rest hf', processFiles_skip clock' d k rest hf']
      exact ih d k

lemma processFiles_nil_of_noFiles (clock : Nat → Datetime) :
    ∀ (es : List Entry) (d : Datetime) (k : Nat), countFiles es = 0 →
      processFiles clock d k es = [] := by
  intro es
  induction es with
  | nil => intro d k _; rfl
  | cons e rest ih =>
    intro d k h0
    by_cases hf : e.isFile = true
    · rw [countFiles_cons_file hf] at h0; omega
    · have hf' : e.isFile = false := by simpa using hf
      rw [processFiles_skip clock d k rest hf']
      rw [countFiles_cons_skip hf'] at h0
      exact ih d k h0

lemma processFiles_nodup_count (clock : Nat → Datetime) :
    ∀ (es : List Entry) (d : Datetime) (k : Nat), ValidDT d →
      (addMinutes d (countFiles es)).year ≤ 9999 →
      (∀ e ∈ es, e.isFile = true → pySuffix e.name ≠ []) →
      ((processFiles clock d k es).map Prod.fst).Nodup ∧
      (processFiles clock d k es).length = 2 * countFiles es := by
  intro es
  induction es with
  | nil => intro d k _ _ _; exact ⟨List.nodup_nil, rfl⟩
  | cons e rest ih =>
    intro d k hv hy hsuf
    by_cases hf : e.isFile = true
    · have hcf : countFiles (e :: rest) = countFiles rest + 1 := countFiles_cons_file hf rest
      have hy' : (addMinutes (addMinute d) (countFiles rest)).year ≤ 9999 := by
        rw [addMinutes_succ_shift]
        rw [hcf] at hy
        exact hy
      have ihr := ih (addMinute d) (k + 1) (addMinute_valid hv) hy'
        (fun x hx hfx => hsuf x (List.mem_cons_of_mem e hx) hfx)
      rw [processFiles_cons_file clock d k rest hf]
      have hne_head :
          strftimeYmdHMS d ++ ' ' :: (replaceDots (pyStem e.name) ++ pySuffix e.name) ≠
            strftimeYmdHMS d ++ ' ' :: replaceDots (pyStem e.name) := by
        intro heq
        have hlen := congrArg List.length heq
        simp only [List.length_append, List.length_cons] at hlen
        exact hsuf e (List.mem_cons_self e rest) hf
          (List.eq_nil_of_length_eq_zero (by omega))
      have hnot : ∀ u, (strftimeYmdHMS d ++ ' ' :: u) ∉
          (processFiles clock (addMinute d) (k + 1) rest).map Prod.fst := by
        intro u hmem
        obtain ⟨i, t, hi, hpath⟩ := path_mem_shape clock hmem
        rw [addMinutes_succ_shift] at hpath
        have hyb : (addMinutes d (i + 1)).year ≤ 9999 := by
          refine le_trans (year_mono_addMinutes d ?_) hy
          rw [hcf]
          omega
        have hzne : strftimeYmdHMS (addMinutes d 0) ≠ strftimeYmdHMS (addMinutes d (i + 1)) :=
          strftime_ne_of_lt hv (by omega) hyb
        exact path_ne_of_zid_ne hzne (' ' :: u) (' ' :: t) hpath
      constructor
      · simp only [List.map_cons]
        rw [List.nodup_cons, List.nodup_cons]
        refine ⟨?_, hnot _, ihr.1⟩
        intro hmem
        rcases List.mem_cons.mp hmem with h0 | h1
        · exact hne_head h0
        · exact hnot _ h1
      · simp only [List.length_cons]
        rw [ihr.2, hcf]
        omega
    · have hf' : e.isFile = false := by simpa using hf
      rw [processFiles_skip clock d k rest hf']
      rw [countFiles_cons_skip hf'] at hy
      rw [countFiles_cons_skip hf']
      exact ih d k hv hy (fun x hx hfx => hsuf x (List.mem_cons_of_mem e hx) hfx)

lemma ofNat_digit_ne_nl : ∀ m < 10, Char.ofNat (48 + m) ≠ '\n' := by decide

lemma nl_notin_digitsB (k : Nat) : ∀ n, '\n' ∉ digitsB k n := by
  induction k with
  | zero => intro n; simp [digitsB]
  | succ m ih =>
    intro n
    simp only [digitsB]
    intro hmem
    rcases List.mem_append.mp hmem with h1 | h2
    · exact ih (n / 10) h1
    · have h3 : '\n' = Char.ofNat (48 + n % 10) := List.mem_singleton.mp h2
      exact ofNat_digit_ne_nl (n % 10) (Nat.mod_lt n (by omega)) h3.symm

lemma nl_notin_strftime (d : Datetime) : '\n' ∉ strftimeYmdHMS d := by
  unfold strftimeYmdHMS
  simp [List.mem_append, nl_notin_digitsB]

lemma countNL_append (a b : List Char) : countNL (a ++ b) = countNL a + countNL b := by
  simp [countNL, List.filter_append]

lemma countNL_cons_nl (s : List Char) : countNL ('\n' :: s) = countNL s + 1 := by
  simp [countNL, List.filter_cons]

lemma countNL_eq_zero {s : List Char} (h : '\n' ∉ s) : countNL s = 0 := by
  rw [countNL, List.length_eq_zero, List.filter_eq_nil]
  intro c hc
  simp only [decide_eq_true_eq]
  intro he
  subst he
  exact h hc

lemma toLower_ne_nl {c : Char} (h : c ≠ '\n') : Char.toLower c ≠ '\n' := by
  unfold Char.toLower
  dsimp only
  split
  next hcond =>
    have key : ∀ n < 91, 65 ≤ n → Char.ofNat (n + 32) ≠ '\n' := by decide
    exact key c.toNat (by omega) (by omega)
  next => exact h

lemma toUpper_ne_nl {c : Char} (h : c ≠ '\n') : Char.toUpper c ≠ '\n' := by
  unfold Char.toUpper
  dsimp only
  split
  next hcond =>
    have key : ∀ n < 123, 97 ≤ n → Char.ofNat (n - 32) ≠ '\n' := by decide
    exact key c.toNat (by omega) (by omega)
  next => exact h

lemma nl_notin_pyCapitalize {t : List Char} (h : '\n' ∉ t) : '\n' ∉ pyCapitalize t := by
  cases t with
  | nil => simp [pyCapitalize]
  | cons c cs =>
    simp only [pyCapitalize]
    intro hmem
    rcases List.mem_cons.mp hmem with h0 | h1
    · exact toUpper_ne_nl (fun he => h (he ▸ List.mem_cons_self c cs)) h0.symm
    · obtain ⟨x, hx, hxl⟩ := List.mem_map.mp h1
      have hxne : x ≠ '\n' := fun he => h (he ▸ List.mem_cons_of_mem c hx)
      exact toLower_ne_nl hxne hxl

lemma countNL_make_meta {t : List Char} (now : Datetime) (h : '\n' ∉ t) :
    countNL (make_meta t now) = 4 := by
  have h1 : countNL "title: ".toList = 0 := by decide
  have h2 : countNL "role: zettel".toList = 0 := by decide
  have h3 : countNL "syntax: markdown".toList = 0 := by decide
  have h4 : countNL "created: ".toList = 0 := by decide
  have h5 : countNL (pyCapitalize t) = 0 := countNL_eq_zero (nl_notin_pyCapitalize h)
  have h6 : countNL (strftimeYmdHMS now) = 0 := countNL_eq_zero (nl_notin_strftime now)
  have h0 : countNL ([] : List Char) = 0 := rfl
  unfold make_meta
  simp only [countNL_append, countNL_cons_nl, h1, h2, h3, h4, h5, h6, h0]

lemma processFilesE_cons_file (clock : Nat → Datetime) (ce me : Nat → Option (List Char))
    (d : Datetime) (k : Nat) {e : Entry} (rest : List Entry) (hf : e.isFile = true) :
    processFilesE clock ce me d k (e :: rest) =
      match ce k with
      | some m => Except.error m
      | none =>
        match me k with
        | some m => Except.error m
        | none =>
          match processFilesE clock ce me (addMinute d) (k + 1) rest with
          | Except.error m => Except.error m
          | Except.ok ws =>
            Except.ok
              ((strftimeYmdHMS d ++ ' ' :: (replaceDots (pyStem e.name) ++ pySuffix e.name),
                  copy_zettel e) ::
                (strftimeYmdHMS d ++ ' ' :: replaceDots (pyStem e.name),
                  FileData.text (make_meta (replaceDots (pyStem e.name)) (clock k))) :: ws) := by
  simp [processFilesE, hf]

lemma processFilesE_cons_skip (clock : Nat → Datetime) (ce me : Nat → Option (List Char))
    (d : Datetime) (k : Nat) {e : Entry} (rest : List Entry) (hf : e.isFile = false) :
    processFilesE clock ce me d k (e :: rest) = processFilesE clock ce me d k rest := by
  simp [processFilesE, hf]

lemma processFilesE_ok_noErr (clock : Nat → Datetime) (ce me : Nat → Option (List Char)) :
    ∀ (es : List Entry) (d : Datetime) (k : Nat) (ws : List Write),
      processFilesE clock ce me d k es = Except.ok ws →
      ∀ j, j < countFiles es → ce (k + j) = none ∧ me (k + j) = none := by
  intro es
  induction es with
  | nil => intro d k ws h j hj; rw [countFiles_nil] at hj; omega
  | cons e rest ih =>
    intro d k ws h j hj
    by_cases hf : e.isFile = true
    · rw [processFilesE_cons_file clock ce me d k rest hf] at h
      cases hce : ce k with
      | some m => rw [hce] at h; simp at h
      | none =>
        rw [hce] at h
        cases hme : me k with
        | some m => rw [hme] at h; simp at h
        | none =>
          rw [hme] at h
          cases hrec : processFilesE clock ce me (addMinute d) (k + 1) rest with
          | error m => rw [hrec] at h; simp at h
          | ok ws' =>
            have ihr := ih (addMinute d) (k + 1) ws' hrec
            rw [countFiles_cons_file hf] at hj
            cases j with
            | zero => exact ⟨by simpa using hce, by simpa using hme⟩
            | succ m =>
              have hm := ihr m (by omega)
              have hk : k + 1 + m = k + (m + 1) := by omega
              rw [hk] at hm
              exact hm
    · have hf' : e.isFile = false := by simpa using hf
      rw [processFilesE_cons_skip clock ce me d k rest hf'] at h
      rw [countFiles_cons_skip hf'] at hj
      exact ih d k ws h j hj

lemma processFilesE_noErr (clock : Nat → Datetime) :
    ∀ (es : List Entry) (d : Datetime) (k : Nat),
      processFilesE clock (fun _ => none) (fun _ => none) d k es =
        Except.ok (processFiles clock d k es) := by
  intro es
  induction es with
  | nil => intro d k; rfl
  | cons e rest ih =>
    intro d k
    by_cases hf : e.isFile = true
    · rw [processFilesE_cons_file clock _ _ d k rest hf,
        processFiles_cons_file clock d k rest hf]
      rw [ih (addMinute d) (k + 1)]
    · have hf' : e.isFile = false := by simpa using hf
      rw [processFilesE_cons_skip clock _ _ d k rest hf',
        processFiles_skip clock d k rest hf']
      exact ih d k

lemma main_run_noErr (rm : Option (List Char)) (clock : Nat → Datetime) (es : List Entry) :
    main_run ⟨rm, none, clock, fun _ => none, fun _ => none, es⟩ =
      Except.ok ⟨(match rm with | none => [] | some m => [m]),
        processFiles clock epoch1980 0 es⟩ := by
  unfold main_run create_zettel_dir
  dsimp only
  rw [processFilesE_noErr]

lemma main_run_mkErr (env : Env) (m : List Char) (hm : env.mkErr = some m) :
    main_run env = Except.error m := by
  unfold main_run create_zettel_dir
  rw [hm]

lemma main_run_ok_inv (env : Env) (out : RunOut) (h : main_run env = Except.ok out) :
    env.mkErr = none ∧
    out.stdout = (match env.rmErr with | none => [] | some m => [m]) ∧
    processFilesE env.clock env.copyErr env.metaErr epoch1980 0 env.entries =
      Except.ok out.writes := by
  unfold main_run create_zettel_dir at h
  cases hmk : env.mkErr with
  | some m => rw [hmk] at h; simp at h
  | none =>
    rw [hmk] at h
    dsimp only at h
    cases hpe : processFilesE env.clock env.copyErr env.metaErr epoch1980 0 env.entries with
    | error m => rw [hpe] at h; simp at h
    | ok ws =>
      rw [hpe] at h
      simp only [Except.ok.injEq] at h
      subst h
      exact ⟨rfl, rfl, rfl⟩

end Lemmas

section Claims

/-- C1, counterexample: on the single input `note.txt` with the wall clock
reading 2024-05-06 07:08:09, the metadata sidecar's fourth line is
`created: 20240506070809`, which differs from `created: 19800101000000`
even though `19800101000000` is the identifier in both output file names.
So the value after `created:` is not the allocated identifier. -/
theorem c1_created_counterexample :
    processFiles (fun _ => ⟨2024, 5, 6, 7, 8, 9⟩) epoch1980 0
        [⟨"note.txt".toList, true, [104]⟩] =
      [("19800101000000 note.txt".toList, FileData.bytes [104]),
       ("19800101000000 note".toList,
         FileData.text
           "title: Note\nrole: zettel\nsyntax: markdown\ncreated: 20240506070809\n".toList)] ∧
    "title: Note\nrole: zettel\nsyntax: markdown\ncreated: 20240506070809\n".toList ≠
      "title: Note\nrole: zettel\nsyntax: markdown\ncreated: 19800101000000\n".toList := by
  exact ⟨by decide, by decide⟩

/-- C1 (amended): for every metadata file a run produces, the fourth line is
`created: <ts>` where `<ts>` is the wall-clock reading taken by
`datetime.datetime.now()` when that file was processed, formatted as
`YYYYMMDDHHMMSS` — not the 14-digit identifier used in the file names. -/
theorem c1_created_line (clock : Nat → Datetime) (es : List Entry) (p s : List Char)
    (hmem : (p, FileData.text s) ∈ processFiles clock epoch1980 0 es) :
    ∃ i t, s = make_meta t (clock i) ∧
      ∃ pre, s = pre ++ ("created: ".toList ++ (strftimeYmdHMS (clock i) ++ ['\n'])) := by
  obtain ⟨i, e, hi, hee, hff, hcase⟩ :=
    mem_processFiles_shape clock es epoch1980 0 p (FileData.text s) hmem
  rcases hcase with ⟨hp, habs⟩ | ⟨hp, hs⟩
  · exact absurd habs (by simp [copy_zettel])
  · have hs' : s = make_meta (replaceDots (pyStem e.name)) (clock (0 + i)) := by
      injection hs
    refine ⟨0 + i, replaceDots (pyStem e.name), hs', ?_⟩
    refine ⟨"title: ".toList ++ pyCapitalize (replaceDots (pyStem e.name)) ++ ('\n' ::
      ("role: zettel".toList ++ ('\n' :: ("syntax: markdown".toList ++ ['\n'])))), ?_⟩
    rw [hs']
    unfold make_meta
    simp [List.append_assoc]

/-- C1, witness: the amended statement instantiated on the `note.txt` run. -/
theorem c1_created_line_witness :
    ∃ (i : Nat) (t : List Char), make_meta "note".toList ⟨2024, 5, 6, 7, 8, 9⟩ =
        make_meta t (⟨2024, 5, 6, 7, 8, 9⟩ : Datetime) ∧
      ∃ pre, make_meta "note".toList ⟨2024, 5, 6, 7, 8, 9⟩ =
        pre ++ ("created: ".toList ++
          (strftimeYmdHMS (⟨2024, 5, 6, 7, 8, 9⟩ : Datetime) ++ ['\n'])) :=
  c1_created_line (fun _ => ⟨2024, 5, 6, 7, 8, 9⟩) [⟨"note.txt".toList, true, [104]⟩]
    ("19800101000000 note".toList) (make_meta "note".toList ⟨2024, 5, 6, 7, 8, 9⟩)
    (by decide)

/-- C2, counterexample: for the input stem `aB`, `str.capitalize()` yields
`Ab`, not `AB`: the characters after the first are lower-cased, not left
unchanged. -/
theorem c2_title_counterexample :
    processFiles (fun _ => epoch1980) epoch1980 0 [⟨"aB.md".toList, true, []⟩] =
      [("19800101000000 aB.md".toList, FileData.bytes []),
       ("19800101000000 aB".toList,
         FileData.text
           "title: Ab\nrole: zettel\nsyntax: markdown\ncreated: 19800101000000\n".toList)] ∧
    pyCapitalize "aB".toList = "Ab".toList ∧
    pyCapitalize "aB".toList ≠ "AB".toList := by
  exact ⟨by decide, by decide, by decide⟩

/-- C2 (amended): every produced metadata file's `title:` value is the
content file's stem (dots replaced by underscores) with the first character
upper-cased and every remaining character LOWER-cased, which is what
`str.capitalize()` does. -/
theorem c2_title_value (clock : Nat → Datetime) (es : List Entry) (p s : List Char)
    (hmem : (p, FileData.text s) ∈ processFiles clock epoch1980 0 es) :
    (∃ i e, e ∈ es ∧ e.isFile = true ∧
        p = strftimeYmdHMS (currdateAt i) ++ ' ' :: replaceDots (pyStem e.name) ∧
        s = make_meta (replaceDots (pyStem e.name)) (clock i)) ∧
    (∀ (t : List Char) (now : Datetime), ∃ rest,
        make_meta t now = "title: ".toList ++ (pyCapitalize t ++ ('\n' :: rest))) ∧
    (∀ (c : Char) (cs : List Char),
        pyCapitalize (c :: cs) = c.toUpper :: cs.map Char.toLower) := by
  refine ⟨?_, ?_, fun c cs => rfl⟩
  · obtain ⟨i, e, hi, hee, hff, hcase⟩ :=
      mem_processFiles_shape clock es epoch1980 0 p (FileData.text s) hmem
    rcases hcase with ⟨hp, habs⟩ | ⟨hp, hs⟩
    · exact absurd habs (by simp [copy_zettel])
    · refine ⟨i, e, hee, hff, hp, ?_⟩
      have hs' : s = make_meta (replaceDots (pyStem e.name)) (clock (0 + i)) := by
        injection hs
      simpa using hs'
  · intro t now
    refine ⟨"role: zettel".toList ++ ('\n' ::
      ("syntax: markdown".toList ++ ('\n' ::
        ("created: ".toList ++ strftimeYmdHMS now ++ ['\n'])))), ?_⟩
    unfold make_meta
    simp [List.append_assoc]

/-- C2, witness: the amended statement instantiated on the `aB.md` run. -/
theorem c2_title_value_witness :
    (∃ i e, e ∈ [(⟨"aB.md".toList, true, []⟩ : Entry)] ∧ e.isFile = true ∧
        "19800101000000 aB".toList =
          strftimeYmdHMS (currdateAt i) ++ ' ' :: replaceDots (pyStem e.name) ∧
        make_meta "aB".toList epoch1980 =
          make_meta (replaceDots (pyStem e.name)) ((fun _ => epoch1980) i)) ∧
    (∀ (t : List Char) (now : Datetime), ∃ rest,
        make_meta t now = "title: ".toList ++ (pyCapitalize t ++ ('\n' :: rest))) ∧
    (∀ (c : Char) (cs : List Char),
        pyCapitalize (c :: cs) = c.toUpper :: cs.map Char.toLower) :=
  c2_title_value (fun _ => epoch1980) [⟨"aB.md".toList, true, []⟩]
    ("19800101000000 aB".toList) (make_meta "aB".toList epoch1980) (by decide)

/-- C3, counterexample: the input `README` has an empty suffix, so the
content path and the metadata path coincide and the run writes only one
distinct output path, not `2 × 1`. -/
theorem c3_count_counterexample :
    distinctPaths (processFiles (fun _ => epoch1980) epoch1980 0
        [⟨"README".toList, true, [82]⟩]) = 1 ∧
    distinctPaths (processFiles (fun _ => epoch1980) epoch1980 0
        [⟨"README".toList, true, [82]⟩]) ≠
      2 * countFiles [⟨"README".toList, true, [82]⟩] := by
  exact ⟨by decide, by decide⟩

/-- C3 (amended): provided every regular file in the input directory has a
non-empty extension (and the run completes, i.e. the identifiers stay within
`datetime`'s year range), the output directory holds exactly
`2 × countFiles` distinct paths; with no regular files it holds zero. An
extensionless input makes its two paths coincide, producing fewer files. -/
theorem c3_output_file_count (clock : Nat → Datetime) (es : List Entry)
    (hy : (addMinutes epoch1980 (countFiles es)).year ≤ 9999)
    (hsuf : ∀ e ∈ es, e.isFile = true → pySuffix e.name ≠ []) :
    distinctPaths (processFiles clock epoch1980 0 es) = 2 * countFiles es ∧
    (countFiles es = 0 → processFiles clock epoch1980 0 es = []) := by
  have h := processFiles_nodup_count clock es epoch1980 0 (by decide) hy hsuf
  refine ⟨?_, fun h0 => processFiles_nil_of_noFiles clock es epoch1980 0 h0⟩
  unfold distinctPaths
  rw [List.dedup_eq_self.mpr h.1, List.length_map, h.2]

/-- C3, witness: two `.md` inputs produce four distinct output paths. -/
theorem c3_output_file_count_witness :
    distinctPaths (processFiles (fun _ => epoch1980) epoch1980 0
        [⟨"a.md".toList, true, [97]⟩, ⟨"b.md".toList, true, [98]⟩]) =
      2 * countFiles [⟨"a.md".toList, true, [97]⟩, ⟨"b.md".toList, true, [98]⟩] ∧
    (countFiles [(⟨"a.md".toList, true, [97]⟩ : Entry), ⟨"b.md".toList, true, [98]⟩] = 0 →
      processFiles (fun _ => epoch1980) epoch1980 0
        [⟨"a.md".toList, true, [97]⟩, ⟨"b.md".toList, true, [98]⟩] = []) :=
  c3_output_file_count (fun _ => epoch1980)
    [⟨"a.md".toList, true, [97]⟩, ⟨"b.md".toList, true, [98]⟩] (by decide) (by decide)

/-- C4: the i-th processed regular file is assigned the identifier obtained
by formatting 1980-01-01 00:00:00 plus i minutes as `YYYYMMDDHHMMSS`: the
first identifier is `19800101000000`, `currdate` advances by exactly one
minute per processed file (independently of file content or size, which the
allocation never reads), and for a completed run (identifiers within
`datetime`'s year range) the identifiers are pairwise distinct and strictly
increasing in enumeration order. -/
theorem c4_identifier_sequence :
    strftimeYmdHMS (currdateAt 0) = "19800101000000".toList ∧
    (∀ i, currdateAt (i + 1) = addMinute (currdateAt i)) ∧
    (∀ (clock : Nat → Datetime) (es : List Entry) (i : Nat) (e : Entry),
        ((es.filter fun x => x.isFile).get? i = some e) →
        (strftimeYmdHMS (currdateAt i) ++
            ' ' :: (replaceDots (pyStem e.name) ++ pySuffix e.name),
          copy_zettel e) ∈ processFiles clock epoch1980 0 es) ∧
    (∀ i j, i < j → (currdateAt j).year ≤ 9999 →
        strftimeYmdHMS (currdateAt i) ≠ strftimeYmdHMS (currdateAt j) ∧
        List.Lex (· < ·) (strftimeYmdHMS (currdateAt i)) (strftimeYmdHMS (currdateAt j))) := by
  refine ⟨by decide, fun i => rfl, ?_, ?_⟩
  · intro clock es i e h
    exact nthFile_content_mem clock es epoch1980 0 i e h
  · intro i j hij hy
    have hv : ValidDT epoch1980 := by decide
    have hlex := strftime_lex_of_lt hv hij hy
    exact ⟨lex_ne hlex, hlex⟩

/-- C4, witness: the identifier parts instantiated at the first file of a
one-file run and at the pair of indices 0 < 1. -/
theorem c4_identifier_sequence_witness :
    ((strftimeYmdHMS (currdateAt 0) ++
        ' ' :: (replaceDots (pyStem "b.md".toList) ++ pySuffix "b.md".toList),
      copy_zettel ⟨"b.md".toList, true, [98]⟩) ∈
      processFiles (fun _ => epoch1980) epoch1980 0 [⟨"b.md".toList, true, [98]⟩]) ∧
    (strftimeYmdHMS (currdateAt 0) ≠ strftimeYmdHMS (currdateAt 1) ∧
      List.Lex (· < ·) (strftimeYmdHMS (currdateAt 0)) (strftimeYmdHMS (currdateAt 1))) :=
  ⟨c4_identifier_sequence.2.2.1 (fun _ => epoch1980) [⟨"b.md".toList, true, [98]⟩] 0
      ⟨"b.md".toList, true, [98]⟩ (by decide),
   c4_identifier_sequence.2.2.2 0 1 (by decide) (by decide)⟩

/-- C5: two runs over the same entries in the same enumeration order differ
only in the wall clock they observe; all output file names coincide, the
content files are byte-identical, and every run restarts `currdate` at the
1980 epoch (the run's output is a pure function of its inputs, with no state
carried across runs). -/
theorem c5_rerun_determinism (clock clock' : Nat → Datetime) (es : List Entry)
    (rm : Option (List Char)) :
    (processFiles clock epoch1980 0 es).map Prod.fst =
      (processFiles clock' epoch1980 0 es).map Prod.fst ∧
    contentWrites (processFiles clock epoch1980 0 es) =
      contentWrites (processFiles clock' epoch1980 0 es) ∧
    main_run ⟨rm, none, clock, fun _ => none, fun _ => none, es⟩ =
      Except.ok ⟨(match rm with | none => [] | some m => [m]),
        processFiles clock epoch1980 0 es⟩ := by
  obtain ⟨h1, h2⟩ := processFiles_clock_irrelevant clock clock' es epoch1980 0
  exact ⟨h1, h2, main_run_noErr rm clock es⟩

/-- C6: every regular file's bytes are copied verbatim to
`<zid> <stem><suffix>` (dots in the stem replaced by underscores), non-file
entries are skipped and produce no writes, and the `sub/` plus `a.b.md`
scenario yields exactly the paths `19800101000000 a_b.md` and
`19800101000000 a_b`. -/
theorem c6_copy_verbatim_and_skip :
    (∀ (clock : Nat → Datetime) (es : List Entry) (i : Nat) (e : Entry),
        ((es.filter fun x => x.isFile).get? i = some e) →
        (strftimeYmdHMS (currdateAt i) ++
            ' ' :: (replaceDots (pyStem e.name) ++ pySuffix e.name),
          FileData.bytes e.content) ∈ processFiles clock epoch1980 0 es) ∧
    (∀ (clock : Nat → Datetime) (d : Datetime) (k : Nat) (e : Entry) (es : List Entry),
        e.isFile = false → processFiles clock d k (e :: es) = processFiles clock d k es) ∧
    (∀ clock : Nat → Datetime,
        (processFiles clock epoch1980 0
            [⟨"sub".toList, false, []⟩, ⟨"a.b.md".toList, true, [1, 2]⟩]).map Prod.fst =
          ["19800101000000 a_b.md".toList, "19800101000000 a_b".toList]) := by
  refine ⟨?_, ?_, fun clock => rfl⟩
  · intro clock es i e h
    exact nthFile_content_mem clock es epoch1980 0 i e h
  · intro clock d k e es hf
    exact processFiles_skip clock d k es hf

/-- C6, witness: the copy and skip parts instantiated on concrete inputs. -/
theorem c6_copy_verbatim_and_skip_witness :
    ((strftimeYmdHMS (currdateAt 0) ++
        ' ' :: (replaceDots (pyStem "c.md".toList) ++ pySuffix "c.md".toList),
      FileData.bytes [99]) ∈
      processFiles (fun _ => epoch1980) epoch1980 0 [⟨"c.md".toList, true, [99]⟩]) ∧
    processFiles (fun _ => epoch1980) epoch1980 0 [⟨"sub".toList, false, []⟩] =
      processFiles (fun _ => epoch1980) epoch1980 0 [] :=
  ⟨c6_copy_verbatim_and_skip.1 (fun _ => epoch1980) [⟨"c.md".toList, true, [99]⟩] 0
      ⟨"c.md".toList, true, [99]⟩ (by decide),
   c6_copy_verbatim_and_skip.2.1 (fun _ => epoch1980) epoch1980 0
      ⟨"sub".toList, false, []⟩ [] rfl⟩

/-- C7, counterexample: when `shutil.rmtree` raises the not-found error
(no prior output directory), `create_zettel_dir` prints the exception —
the run's diagnostic output is non-empty — rather than silently ignoring
that specific error. -/
theorem c7_notfound_reported_counterexample :
    create_zettel_dir
        (some "FileNotFoundError: Errno 2: no such file or directory: zettel".toList)
        none =
      Except.ok
        ["FileNotFoundError: Errno 2: no such file or directory: zettel".toList] ∧
    (["FileNotFoundError: Errno 2: no such file or directory: zettel".toList] :
        List (List Char)) ≠ [] := by
  exact ⟨rfl, by decide⟩

/-- C7 (amended): every failure of the prior-directory removal — the
not-found error included — is caught, reported as a printed diagnostic, and
never aborts the run; any failure to create the fresh output directory
propagates as a fatal error.  The not-found case is handled exactly like
every other removal failure, not silently ignored. -/
theorem c7_dir_reset_errors :
    (∀ msg : List Char, create_zettel_dir (some msg) none = Except.ok [msg]) ∧
    (create_zettel_dir none none = Except.ok []) ∧
    (∀ (rmErr : Option (List Char)) (m : List Char),
        create_zettel_dir rmErr (some m) = Except.error m) ∧
    (∀ (env : Env) (m : List Char), env.mkErr = some m →
        main_run env = Except.error m) := by
  refine ⟨fun msg => rfl, rfl, fun rmErr m => rfl, fun env m hm => main_run_mkErr env m hm⟩

/-- C7, witness: a run whose directory creation fails aborts with that
error. -/
theorem c7_dir_reset_errors_witness :
    main_run ⟨none, some "PermissionError: mkdir zettel".toList, fun _ => epoch1980,
        fun _ => none, fun _ => none, []⟩ =
      Except.error "PermissionError: mkdir zettel".toList :=
  c7_dir_reset_errors.2.2.2
    ⟨none, some "PermissionError: mkdir zettel".toList, fun _ => epoch1980,
      fun _ => none, fun _ => none, []⟩
    "PermissionError: mkdir zettel".toList rfl

/-- C8, counterexample: a first run (no prior `zettel` directory, so the
removal raises and the exception is printed) completes successfully yet its
standard output is non-empty, refuting the claim that every successful run
is silent. -/
theorem c8_silent_success_counterexample :
    main_run ⟨some "FileNotFoundError: Errno 2".toList, none, fun _ => epoch1980,
        fun _ => none, fun _ => none, [⟨"note.txt".toList, true, [104]⟩]⟩ =
      Except.ok ⟨["FileNotFoundError: Errno 2".toList],
        processFiles (fun _ => epoch1980) epoch1980 0
          [⟨"note.txt".toList, true, [104]⟩]⟩ ∧
    (["FileNotFoundError: Errno 2".toList] : List (List Char)) ≠ [] :=
  ⟨main_run_noErr (some "FileNotFoundError: Errno 2".toList) (fun _ => epoch1980)
      [⟨"note.txt".toList, true, [104]⟩], by decide⟩

/-- C8 (amended): a successful run prints nothing when the removal of the
prior output directory succeeded, and prints exactly the removal diagnostic
when it failed (e.g. on a first run); any I/O failure during directory
creation, file copy, or metadata write makes the run end in an unhandled
error instead of completing. -/
theorem c8_exit_behaviour (env : Env) (out : RunOut) :
    (main_run env = Except.ok out → env.rmErr = none → out.stdout = []) ∧
    (∀ m, main_run env = Except.ok out → env.rmErr = some m → out.stdout = [m]) ∧
    (∀ m, env.mkErr = some m → main_run env = Except.error m) ∧
    (main_run env = Except.ok out →
      ∀ j, j < countFiles env.entries → env.copyErr j = none ∧ env.metaErr j = none) := by
  refine ⟨?_, ?_, fun m hm => main_run_mkErr env m hm, ?_⟩
  · intro h hrm
    obtain ⟨_, hstd, _⟩ := main_run_ok_inv env out h
    rw [hstd, hrm]
  · intro m h hrm
    obtain ⟨_, hstd, _⟩ := main_run_ok_inv env out h
    rw [hstd, hrm]
  · intro h j hj
    obtain ⟨_, _, hpe⟩ := main_run_ok_inv env out h
    have hres := processFilesE_ok_noErr env.clock env.copyErr env.metaErr env.entries
      epoch1980 0 out.writes hpe j hj
    simpa using hres

/-- C8, witness: the amended statement instantiated on an error-free
one-file run. -/
theorem c8_exit_behaviour_witness :
    ((⟨[], processFiles (fun _ => epoch1980) epoch1980 0
        [⟨"a.md".toList, true, []⟩]⟩ : RunOut).stdout = []) ∧
    ((fun _ : Nat => (none : Option (List Char))) 0 = none ∧
      (fun _ : Nat => (none : Option (List Char))) 0 = none) :=
  ⟨(c8_exit_behaviour
      ⟨none, none, fun _ => epoch1980, fun _ => none, fun _ => none,
        [⟨"a.md".toList, true, []⟩]⟩
      ⟨[], processFiles (fun _ => epoch1980) epoch1980 0 [⟨"a.md".toList, true, []⟩]⟩).1
    (main_run_noErr none (fun _ => epoch1980) [⟨"a.md".toList, true, []⟩]) rfl,
   (c8_exit_behaviour
      ⟨none, none, fun _ => epoch1980, fun _ => none, fun _ => none,
        [⟨"a.md".toList, true, []⟩]⟩
      ⟨[], processFiles (fun _ => epoch1980) epoch1980 0 [⟨"a.md".toList, true, []⟩]⟩).2.2.2
    (main_run_noErr none (fun _ => epoch1980) [⟨"a.md".toList, true, []⟩]) 0 (by decide)⟩

/-- C9, counterexample: a file whose stem contains a newline (`a\nb.md`)
yields a metadata file with five newline-terminated lines, not four. -/
theorem c9_meta_lines_counterexample :
    processFiles (fun _ => ⟨2024, 1, 2, 3, 4, 5⟩) epoch1980 0
        [⟨"a\nb.md".toList, true, []⟩] =
      [("19800101000000 a\nb.md".toList, FileData.bytes []),
       ("19800101000000 a\nb".toList,
         FileData.text (make_meta "a\nb".toList ⟨2024, 1, 2, 3, 4, 5⟩))] ∧
    countNL (make_meta "a\nb".toList ⟨2024, 1, 2, 3, 4, 5⟩) = 5 ∧
    countNL (make_meta "a\nb".toList ⟨2024, 1, 2, 3, 4, 5⟩) ≠ 4 := by
  exact ⟨by decide, by decide, by decide⟩

/-- C9 (amended): every produced metadata file is the concatenation of the
four newline-terminated `key: value` lines `title`, `role`, `syntax`,
`created` in that order, with `role: zettel` and `syntax: markdown` exact;
it consists of exactly four lines provided the file's stem contains no
newline character (a newline in the stem is written into the title value
raw and adds lines). -/
theorem c9_meta_format (clock : Nat → Datetime) (es : List Entry) (p s : List Char)
    (hmem : (p, FileData.text s) ∈ processFiles clock epoch1980 0 es) :
    ∃ t i, s = make_meta t (clock i) ∧
      make_meta t (clock i) =
        ("title: ".toList ++ pyCapitalize t ++ ['\n']) ++
          (("role: zettel".toList ++ ['\n']) ++
            (("syntax: markdown".toList ++ ['\n']) ++
              ("created: ".toList ++ strftimeYmdHMS (clock i) ++ ['\n']))) ∧
      ('\n' ∉ t → countNL s = 4) := by
  obtain ⟨i, e, hi, hee, hff, hcase⟩ :=
    mem_processFiles_shape clock es epoch1980 0 p (FileData.text s) hmem
  rcases hcase with ⟨hp, habs⟩ | ⟨hp, hs⟩
  · exact absurd habs (by simp [copy_zettel])
  · have hs' : s = make_meta (replaceDots (pyStem e.name)) (clock (0 + i)) := by
      injection hs
    refine ⟨replaceDots (pyStem e.name), 0 + i, hs', ?_, ?_⟩
    · unfold make_meta
      simp [List.append_assoc]
    · intro hnl
      rw [hs']
      exact countNL_make_meta (clock (0 + i)) hnl

/-- C9, witness: the amended statement instantiated on the `note.txt` run,
whose stem has no newline. -/
theorem c9_meta_format_witness :
    ∃ (t : List Char) (i : Nat),
      make_meta "note".toList ⟨2024, 1, 2, 3, 4, 5⟩ =
        make_meta t (⟨2024, 1, 2, 3, 4, 5⟩ : Datetime) ∧
      make_meta t (⟨2024, 1, 2, 3, 4, 5⟩ : Datetime) =
        ("title: ".toList ++ pyCapitalize t ++ ['\n']) ++
          (("role: zettel".toList ++ ['\n']) ++
            (("syntax: markdown".toList ++ ['\n']) ++
              ("created: ".toList ++
                strftimeYmdHMS (⟨2024, 1, 2, 3, 4, 5⟩ : Datetime) ++ ['\n']))) ∧
      ('\n' ∉ t → countNL (make_meta "note".toList ⟨2024, 1, 2, 3, 4, 5⟩) = 4) :=
  c9_meta_format (fun _ => ⟨2024, 1, 2, 3, 4, 5⟩) [⟨"note.txt".toList, true, [104]⟩]
    ("19800101000000 note".toList) (make_meta "note".toList ⟨2024, 1, 2, 3, 4, 5⟩)
    (by decide)

/-- C10: for an input file with an empty extension, the content destination
path and the metadata path are the same path; the metadata write overwrites
the just-copied content (the last write to the path is the metadata text)
and only one distinct output path exists for that input. -/
theorem c10_extensionless_collision (clock : Nat → Datetime) (e : Entry)
    (hf : e.isFile = true) (hsuf : pySuffix e.name = []) :
    processFiles clock epoch1980 0 [e] =
      [(strftimeYmdHMS epoch1980 ++ ' ' :: replaceDots (pyStem e.name), copy_zettel e),
       (strftimeYmdHMS epoch1980 ++ ' ' :: replaceDots (pyStem e.name),
         FileData.text (make_meta (replaceDots (pyStem e.name)) (clock 0)))] ∧
    finalFS (processFiles clock epoch1980 0 [e])
        (strftimeYmdHMS epoch1980 ++ ' ' :: replaceDots (pyStem e.name)) =
      some (FileData.text (make_meta (replaceDots (pyStem e.name)) (clock 0))) ∧
    distinctPaths (processFiles clock epoch1980 0 [e]) = 1 := by
  have h1 : processFiles clock epoch1980 0 [e] =
      [(strftimeYmdHMS epoch1980 ++ ' ' :: replaceDots (pyStem e.name), copy_zettel e),
       (strftimeYmdHMS epoch1980 ++ ' ' :: replaceDots (pyStem e.name),
         FileData.text (make_meta (replaceDots (pyStem e.name)) (clock 0)))] := by
    rw [processFiles_cons_file clock epoch1980 0 [] hf, hsuf]
    simp [processFiles]
  refine ⟨h1, ?_, ?_⟩
  · rw [h1]
    unfold finalFS
    simp [List.find?]
  · rw [h1]
    unfold distinctPaths
    simp only [List.map_cons, List.map_nil]
    rw [List.dedup_cons_of_mem (List.mem_cons_self _ _),
      List.dedup_cons_of_not_mem (List.not_mem_nil _), List.dedup_nil]
    rfl

/-- C10, witness: the statement instantiated on the extensionless input
`README`. -/
theorem c10_extensionless_collision_witness :
    processFiles (fun _ => epoch1980) epoch1980 0 [⟨"README".toList, true, [82]⟩] =
      [(strftimeYmdHMS epoch1980 ++ ' ' :: replaceDots (pyStem "README".toList),
          copy_zettel ⟨"README".toList, true, [82]⟩),
       (strftimeYmdHMS epoch1980 ++ ' ' :: replaceDots (pyStem "README".toList),
          FileData.text (make_meta (replaceDots (pyStem "README".toList)) epoch1980))] ∧
    finalFS (processFiles (fun _ => epoch1980) epoch1980 0 [⟨"README".toList, true, [82]⟩])
        (strftimeYmdHMS epoch1980 ++ ' ' :: replaceDots (pyStem "README".toList)) =
      some (FileData.text (make_meta (replaceDots (pyStem "README".toList)) epoch1980)) ∧
    distinctPaths (processFiles (fun _ => epoch1980) epoch1980 0
        [⟨"README".toList, true, [82]⟩]) = 1 :=
  c10_extensionless_collision (fun _ => epoch1980) ⟨"README".toList, true, [82]⟩
    rfl (by decide)

end Claims

end CreateZettel
